import Mathlib

/-! Verification of `config.js`

`config.js` builds one object literal `config` from static string literals and
four reads of `process.env`, and exports it with `module.exports = config`.

The embedding keeps the object untyped, as it is in JavaScript: a value is a
string, `undefined`, `null`, an object (an ordered list of key/value pairs) or
an array.  Keys are data, so statements about which fields exist are ordinary
propositions.  The process environment is a function from variable names to
optional strings; the module body becomes a function of that environment.
-/

namespace Dataguide

/-! ## JavaScript values -/

/-- A JavaScript value of one of the kinds that `config.js` can produce, plus
`null`, which JSON decoding can produce. Objects keep their keys in insertion
order. -/
inductive JsVal where
  | undefined : JsVal
  | null : JsVal
  | str (s : String) : JsVal
  | obj (fields : List (String × JsVal)) : JsVal
  | arr (items : List JsVal) : JsVal

namespace JsVal

instance : Inhabited JsVal := ⟨undefined⟩

/-- Look a key up in a list of object fields; `undefined` when it is missing,
as a JavaScript property read gives. -/
def lookupField (k : String) : List (String × JsVal) → JsVal
  | [] => undefined
  | (k2, v) :: rest => if k2 = k then v else lookupField k rest

/-- Property read `v[k]` (own properties only). -/
def get (v : JsVal) (k : String) : JsVal :=
  match v with
  | obj fields => lookupField k fields
  | _ => undefined

/-- Chained property read `v[k1][k2]...`. -/
def getPath (v : JsVal) : List String → JsVal
  | [] => v
  | k :: ks => getPath (v.get k) ks

/-- The value of `Object.keys(v)`: own keys of an object in order. -/
def keys : JsVal → List String
  | obj fields => fields.map Prod.fst
  | _ => []

/-- The elements of an array value (empty for anything else). -/
def items : JsVal → List JsVal
  | arr xs => xs
  | _ => []

/-- Replace the value stored under key `k` in a list of fields. -/
def setField (k : String) (x : JsVal) : List (String × JsVal) → List (String × JsVal)
  | [] => []
  | (k2, v) :: rest => if k2 = k then (k2, x) :: rest else (k2, v) :: setField k x rest

/-- Replace the value found at a path of existing keys by `x`; everything
off the path is kept as it is. -/
def setPath (x : JsVal) : List String → JsVal → JsVal
  | [], _ => x
  | k :: ks, obj fields => obj (setField k (setPath x ks (lookupField k fields)) fields)
  | _ :: _, v => v

mutual
/-- Deep structural equality of two values (same kind, same keys in the same
order, equal strings, element-wise equal arrays). -/
def structEq : JsVal → JsVal → Bool
  | undefined, undefined => true
  | null, null => true
  | str a, str b => a == b
  | obj fs, obj gs => structEqFields fs gs
  | arr xs, arr ys => structEqItems xs ys
  | _, _ => false
/-- Deep equality of two field lists. -/
def structEqFields : List (String × JsVal) → List (String × JsVal) → Bool
  | [], [] => true
  | (k, v) :: fs, (k2, v2) :: gs => k == k2 && structEq v v2 && structEqFields fs gs
  | _, _ => false
/-- Deep equality of two element lists. -/
def structEqItems : List JsVal → List JsVal → Bool
  | [], [] => true
  | v :: xs, v2 :: ys => structEq v v2 && structEqItems xs ys
  | _, _ => false
end

end JsVal

open JsVal

/-! ## The process environment -/

/-- The process environment `process.env`: a variable is absent or holds a
string. -/
abbrev Env := String → Option String

/-- The read `process.env.NAME`: the variable's string, or `undefined` when
the variable is absent. -/
def Env.read (env : Env) (name : String) : JsVal :=
  match env name with
  | some v => str v
  | none => undefined

/-- The environment in which no variable is set. -/
def emptyEnv : Env := fun _ => none

/-- The environment `env` with variable `name` set to `value`. -/
def Env.set (env : Env) (name value : String) : Env :=
  fun k => if k = name then some value else env k

/-! ## `config.js` -/

/-- One `{ name: ..., link: ... }` entry of a link list. -/
def entry (name link : String) : JsVal :=
  obj [("name", str name), ("link", str link)]

/-- The object literal bound to `config` in `config.js`, as a function of the
process environment it reads. Commented-out entries are not part of the
literal. -/
def config (env : Env) : JsVal :=
  obj [
    ("gatsby", obj [
      ("pathPrefix", str ""),
      ("siteUrl", str "")]),
    ("header", obj [
      ("logoLink", str ""),
      ("title", str "How To Data"),
      ("links", arr []),
      ("search", obj [
        ("indexName", env.read "GATSBY_ALGOLIA_INDEX_NAME"),
        ("algoliaAppId", env.read "GATSBY_ALGOLIA_APP_ID"),
        ("algoliaSearchKey", env.read "GATSBY_ALGOLIA_SEARCH_KEY"),
        ("algoliaAdminKey", env.read "GATSBY_ALGOLIA_ADMIN_API_KEY")])]),
    ("siteMetadata", obj [
      ("title", str "How To Data - title"),
      ("description", str "How To Data - desc"),
      ("keywords", str "Docs, How To Data, 1.0"),
      ("docsLocation", str "https://github.com/prisma/how-to-data-docs/tree/master/content"),
      ("twitter", obj [
        ("site", str "@howtodata"),
        ("creator", str "@howtodata"),
        ("image", str "/social/docs-social.png")]),
      ("og", obj [
        ("site_name", str "How To Data"),
        ("type", str "website"),
        ("image", obj [
          ("alt", str "How To Data"),
          ("height", str "630"),
          ("type", str "image/png"),
          ("url", str "/social/docs-social.png"),
          ("width", str "1200")])])]),
    ("feedback", obj [
      ("function_name", str "*/.netlify/functions/index")]),
    ("footer", obj [
      ("logoLink", str "/"),
      ("title", str "Prisma"),
      ("products", arr [
        entry "Prisma Client"
          "https://www.prisma.io/docs/reference/tools-and-interfaces/prisma-client/crud",
        entry "Prisma 1 Cloud" "https://app.prisma.io/login"]),
      ("community", arr [
        entry "Meet the community" "https://www.prisma.io/community",
        entry "Slack" "https://slack.prisma.io/",
        entry "Github" "https://github.com/prisma",
        entry "Discussions" "https://github.com/prisma/prisma/discussions",
        entry "GraphQL Meetup" "https://www.meetup.com/graphql-berlin/",
        entry "TypeScript Meetup" "https://www.meetup.com/TypeScript-Berlin/"]),
      ("resources", arr [
        entry "Docs" "/",
        entry "Get started" "https://www.prisma.io/docs/getting-started/quickstart",
        entry "API Reference"
          "https://www.prisma.io/docs/reference/tools-and-interfaces/prisma-client/generating-prisma-client",
        entry "Examples" "https://github.com/prisma/prisma-examples",
        entry "How to GraphQL" "https://www.howtographql.com/",
        entry "PostgreSQL Tutorial" "https://www.prisma.io/tutorials/?tag=postgresql"]),
      ("company", arr [
        entry "About" "https://www.prisma.io/about",
        entry "Jobs" "https://www.prisma.io/jobs",
        entry "Blog" "https://www.prisma.io/blog/",
        entry "Terms & Privacy"
          "https://gist.github.com/nikolasburk/c0f34b0cc50d3403e2e0d40c0e6510aa"]),
      ("newsletter", obj [
        ("text", str "Stay up to date with the latest features and changes to Prisma")]),
      ("findus", obj [
        ("twitterLink", str "https://twitter.com/prisma"),
        ("youtubeLink", str "https://www.youtube.com/channel/UCptAHlN1gdwD89tFM3ENb6w"),
        ("fbLink", str "https://www.facebook.com/prisma.io"),
        ("slackLink", str "https://slack.prisma.io/"),
        ("gitLink", str "https://github.com/prisma")])])]

/-- The value of `module.exports` after `config.js` has run: the `config`
object itself. -/
def moduleExports (env : Env) : JsVal := config env

/-- The `header.search` group of the loaded record. -/
def search (env : Env) : JsVal := (moduleExports env).getPath ["header", "search"]

/-- The five ordered link lists of the loaded record, each with its path. -/
def linkLists (env : Env) : List JsVal :=
  [ (moduleExports env).getPath ["header", "links"],
    (moduleExports env).getPath ["footer", "products"],
    (moduleExports env).getPath ["footer", "community"],
    (moduleExports env).getPath ["footer", "resources"],
    (moduleExports env).getPath ["footer", "company"] ]

/-- An environment in which the four search variables are set. -/
def fullEnv : Env :=
  (((emptyEnv.set "GATSBY_ALGOLIA_INDEX_NAME" "docs").set
    "GATSBY_ALGOLIA_APP_ID" "APP123").set
    "GATSBY_ALGOLIA_SEARCH_KEY" "search-key").set
    "GATSBY_ALGOLIA_ADMIN_API_KEY" "admin-key"

/-! ## JSON text

`JSON.stringify` and `JSON.parse` are built-ins of the platform, not code of
`config.js`.  They are modelled on the values above: strings, `null`, objects
and arrays, with `undefined` treated as `JSON.stringify` treats it.  Number
and boolean literals are outside this fragment and the decoder rejects them.
-/

namespace JSON

/-- The double quote character. -/
def dquote : Char := Char.ofNat 34

/-- The backslash character. -/
def backslash : Char := Char.ofNat 92

/-- The opening brace. -/
def lbrace : Char := Char.ofNat 123

/-- The closing brace. -/
def rbrace : Char := Char.ofNat 125

/-- Lower-case hexadecimal digit of a number below 16. -/
def hexDigit (n : Nat) : Char :=
  if n < 10 then Char.ofNat (48 + n) else Char.ofNat (87 + n)

/-- Value of a hexadecimal digit, either case. -/
def hexVal (c : Char) : Option Nat :=
  if 48 ≤ c.toNat ∧ c.toNat ≤ 57 then some (c.toNat - 48)
  else if 97 ≤ c.toNat ∧ c.toNat ≤ 102 then some (c.toNat - 87)
  else if 65 ≤ c.toNat ∧ c.toNat ≤ 70 then some (c.toNat - 55)
  else none

/-- The escape of one character inside a JSON string, as `JSON.stringify`
writes it: the quote, the backslash and control characters are escaped, every
other character is written as it is. -/
def escapeChar (c : Char) : List Char :=
  if c = dquote then [backslash, dquote]
  else if c = backslash then [backslash, backslash]
  else if c.toNat = 8 then [backslash, 'b']
  else if c.toNat = 12 then [backslash, 'f']
  else if c.toNat = 10 then [backslash, 'n']
  else if c.toNat = 13 then [backslash, 'r']
  else if c.toNat = 9 then [backslash, 't']
  else if c.toNat < 32 then
    [backslash, 'u', '0', '0', hexDigit (c.toNat / 16), hexDigit (c.toNat % 16)]
  else [c]

/-- The escapes of the characters of a string, concatenated. -/
def escapeChars : List Char → List Char
  | [] => []
  | c :: cs => escapeChar c ++ escapeChars cs

/-- A string as a quoted JSON string. -/
def quote (s : String) : List Char :=
  dquote :: (escapeChars s.data ++ [dquote])

/-- Texts joined with commas. -/
def joinComma : List (List Char) → List Char
  | [] => []
  | [t] => t
  | t :: u :: rest => t ++ ',' :: joinComma (u :: rest)

mutual
/-- The text `JSON.stringify` gives for a value, without indentation; `none`
stands for its result `undefined`. -/
def stringifyChars : JsVal → Option (List Char)
  | JsVal.undefined => none
  | JsVal.null => some ['n', 'u', 'l', 'l']
  | JsVal.str s => some (quote s)
  | JsVal.obj fields => some (lbrace :: (joinComma (members fields) ++ [rbrace]))
  | JsVal.arr items => some ('[' :: (joinComma (elements items) ++ [']']))
/-- The `"key":value` texts of an object; a field whose value is `undefined`
is left out. -/
def members : List (String × JsVal) → List (List Char)
  | [] => []
  | (k, v) :: rest =>
    match stringifyChars v with
    | none => members rest
    | some t => (quote k ++ ':' :: t) :: members rest
/-- The texts of the elements of an array; an `undefined` element is written
`null`. -/
def elements : List JsVal → List (List Char)
  | [] => []
  | v :: rest =>
    (match stringifyChars v with
     | none => ['n', 'u', 'l', 'l']
     | some t => t) :: elements rest
end

/-- The built-in `JSON.stringify(v)`. -/
def stringify (v : JsVal) : Option String :=
  (stringifyChars v).map String.mk

/-- JSON white space. -/
def isWs (c : Char) : Bool :=
  c.toNat = 32 || c.toNat = 9 || c.toNat = 10 || c.toNat = 13

/-- Drop leading white space. -/
def skipWs : List Char → List Char
  | [] => []
  | c :: rest => if isWs c then skipWs rest else c :: rest

/-- Decode the `XXXX` of a `\uXXXX` escape; code points that are not
characters (surrogate halves) are rejected. -/
def unicodeEscape (a b c d : Char) : Option Char :=
  match hexVal a, hexVal b, hexVal c, hexVal d with
  | some x, some y, some z, some w =>
    let n := ((x * 16 + y) * 16 + z) * 16 + w
    if n.isValidChar then some (Char.ofNat n) else none
  | _, _, _, _ => none

/-- Read the body of a JSON string, the opening quote already consumed, up to
and including the closing quote: the decoded characters and the rest of the
input. -/
def parseStringBody : List Char → Option (List Char × List Char)
  | [] => none
  | c :: rest =>
    if c = dquote then some ([], rest)
    else if c = backslash then
      match rest with
      | [] => none
      | e :: rest2 =>
        if e = 'u' then
          match rest2 with
          | a :: b :: c2 :: d :: rest3 =>
            match unicodeEscape a b c2 d, parseStringBody rest3 with
            | some u, some (cs, rem) => some (u :: cs, rem)
            | _, _ => none
          | _ => none
        else
          let decoded : Option Char :=
            if e = dquote then some dquote
            else if e = backslash then some backslash
            else if e = '/' then some '/'
            else if e = 'b' then some (Char.ofNat 8)
            else if e = 'f' then some (Char.ofNat 12)
            else if e = 'n' then some (Char.ofNat 10)
            else if e = 'r' then some (Char.ofNat 13)
            else if e = 't' then some (Char.ofNat 9)
            else none
          match decoded, parseStringBody rest2 with
          | some u, some (cs, rem) => some (u :: cs, rem)
          | _, _ => none
    else if c.toNat < 32 then none
    else
      match parseStringBody rest with
      | some (cs, rem) => some (c :: cs, rem)
      | none => none

mutual
/-- Read one JSON value from the front of the input, with a bound on the
number of nested calls: the value and the rest of the input. -/
def parseValue : Nat → List Char → Option (JsVal × List Char)
  | 0, _ => none
  | fuel + 1, input =>
    match skipWs input with
    | [] => none
    | c :: rest =>
      if c = dquote then
        match parseStringBody rest with
        | some (cs, rem) => some (JsVal.str (String.mk cs), rem)
        | none => none
      else if c = 'n' then
        match rest with
        | 'u' :: 'l' :: 'l' :: rem => some (JsVal.null, rem)
        | _ => none
      else if c = lbrace then
        match skipWs rest with
        | [] => none
        | c2 :: rest2 =>
          if c2 = rbrace then some (JsVal.obj [], rest2)
          else
            match parseMembers fuel (c2 :: rest2) with
            | some (fields, rem) => some (JsVal.obj fields, rem)
            | none => none
      else if c = '[' then
        match skipWs rest with
        | [] => none
        | c2 :: rest2 =>
          if c2 = ']' then some (JsVal.arr [], rest2)
          else
            match parseElements fuel (c2 :: rest2) with
            | some (items, rem) => some (JsVal.arr items, rem)
            | none => none
      else none
/-- Read the members of an object up to and including the closing brace, the
opening brace already consumed and at least one member expected. -/
def parseMembers : Nat → List Char → Option (List (String × JsVal) × List Char)
  | 0, _ => none
  | fuel + 1, input =>
    match skipWs input with
    | [] => none
    | q :: rest =>
      if q = dquote then
        match parseStringBody rest with
        | none => none
        | some (k, rem) =>
          match skipWs rem with
          | [] => none
          | colon :: rem2 =>
            if colon = ':' then
              match parseValue fuel rem2 with
              | none => none
              | some (v, rem3) =>
                match skipWs rem3 with
                | [] => none
                | sep :: rem4 =>
                  if sep = rbrace then some ([(String.mk k, v)], rem4)
                  else if sep = ',' then
                    match parseMembers fuel rem4 with
                    | some (fields, rem5) => some ((String.mk k, v) :: fields, rem5)
                    | none => none
                  else none
            else none
      else none
/-- Read the elements of an array up to and including the closing bracket,
the opening bracket already consumed and at least one element expected. -/
def parseElements : Nat → List Char → Option (List JsVal × List Char)
  | 0, _ => none
  | fuel + 1, input =>
    match parseValue fuel input with
    | none => none
    | some (v, rem) =>
      match skipWs rem with
      | [] => none
      | sep :: rem2 =>
        if sep = ']' then some ([v], rem2)
        else if sep = ',' then
          match parseElements fuel rem2 with
          | some (items, rem3) => some (v :: items, rem3)
          | none => none
        else none
end

/-- The built-in `JSON.parse(text)` on the fragment: one value, optionally
surrounded by white space, and nothing after it; `none` stands for the
`SyntaxError` it throws. The bound on nesting is the length of the text, which
no text can exceed. -/
def parse (text : String) : Option JsVal :=
  match parseValue (text.data.length + 1) text.data with
  | some (v, rem) => if skipWs rem = [] then some v else none
  | none => none

mutual
/-- Whether a value holds no `undefined` anywhere, so that `JSON.stringify`
keeps all of it. -/
def jsonSafe : JsVal → Bool
  | JsVal.undefined => false
  | JsVal.null => true
  | JsVal.str _ => true
  | JsVal.obj fields => jsonSafeFields fields
  | JsVal.arr items => jsonSafeItems items
/-- No `undefined` in the values of a field list. -/
def jsonSafeFields : List (String × JsVal) → Bool
  | [] => true
  | (_, v) :: rest => jsonSafe v && jsonSafeFields rest
/-- No `undefined` among the elements of an array. -/
def jsonSafeItems : List JsVal → Bool
  | [] => true
  | v :: rest => jsonSafe v && jsonSafeItems rest
end

mutual
/-- A number of nested decoder calls that is enough to read a value back. -/
def need : JsVal → Nat
  | JsVal.undefined => 1
  | JsVal.null => 1
  | JsVal.str _ => 1
  | JsVal.obj fields => 1 + needFields fields
  | JsVal.arr items => 1 + needItems items
/-- Enough nested calls for the members of an object. -/
def needFields : List (String × JsVal) → Nat
  | [] => 0
  | (_, v) :: rest => 1 + need v + needFields rest
/-- Enough nested calls for the elements of an array. -/
def needItems : List JsVal → Nat
  | [] => 0
  | v :: rest => 1 + need v + needItems rest
end

end JSON

/-- The `siteMetadata` group of the loaded record. -/
def siteMetadata (env : Env) : JsVal := (moduleExports env).get "siteMetadata"

/-! ## Link shapes -/

/-- Whether the first list of characters starts the second. -/
def startsWith : List Char → List Char → Bool
  | [], _ => true
  | _ :: _, [] => false
  | p :: ps, c :: cs => p == c && startsWith ps cs

/-- A root-relative path: it begins with a slash. -/
def isRootRelative (s : List Char) : Bool :=
  startsWith ['/'] s

/-- What follows the scheme and `://` of an `http` or `https` URL. -/
def afterScheme (s : List Char) : Option (List Char) :=
  if startsWith "https://".data s then some (s.drop 8)
  else if startsWith "http://".data s then some (s.drop 7)
  else none

/-- The host of what follows `://`: the characters before the first slash,
question mark or hash. -/
def hostPart (rest : List Char) : List Char :=
  rest.takeWhile (fun c => c != '/' && c != '?' && c != '#')

/-- An absolute URL: scheme `http` or `https`, then `://`, then a host that is
not empty. -/
def isAbsoluteUrl (s : List Char) : Bool :=
  match afterScheme s with
  | some rest => !(hostPart rest).isEmpty
  | none => false

/-- The shape required of a `link`: a root-relative path or an absolute
URL. -/
def wellFormedLink (s : String) : Bool :=
  isRootRelative s.data || isAbsoluteUrl s.data

/-- Whether an entry carries a string `link` of the required shape. -/
def entryLinkOk (e : JsVal) : Bool :=
  match e.get "link" with
  | str s => wellFormedLink s
  | _ => false

/-! ## Loading -/

/-- Running the module in a process: the exported value, and the environment
the run leaves behind. The module body only reads `process.env`. -/
def loadConfig (env : Env) : JsVal × Env := (moduleExports env, env)

/-- An environment in which only the index name is set. -/
def indexOnlyEnv : Env := emptyEnv.set "GATSBY_ALGOLIA_INDEX_NAME" "docs"

/-- The environment `fullEnv` with another admin key. -/
def otherAdminEnv : Env := fullEnv.set "GATSBY_ALGOLIA_ADMIN_API_KEY" "other-admin-key"

/-- The environment `fullEnv` with one more variable, unrelated to search. -/
def homeEnv : Env := fullEnv.set "HOME" "/home/docs"

/-! ## Running the module

The record above is what the object literal evaluates to. To state that
running the module does not disturb the process, the literal is also kept as
an expression and evaluated with the environment passed along explicitly,
property by property in source order. Expressions are those `config.js` is
made of (string literals, reads of `process.env`, object and array literals)
and one it does not contain, an assignment to a variable of `process.env`,
so that leaving the environment alone is a property of the module and not of
the expression language.
-/

/-- A JavaScript expression: a string literal, the read `process.env.NAME`,
the assignment `process.env.NAME = 'value'`, an object literal or an array
literal. -/
inductive JsExpr where
  | lit (s : String) : JsExpr
  | envRead (name : String) : JsExpr
  | envAssign (name value : String) : JsExpr
  | object (fields : List (String × JsExpr)) : JsExpr
  | array (items : List JsExpr) : JsExpr

namespace JsExpr

mutual
/-- Evaluate an expression in an environment: its value and the environment
after the evaluation. Properties and elements are evaluated left to right,
each in the environment left by the one before. -/
def eval : JsExpr → Env → JsVal × Env
  | lit s, env => (JsVal.str s, env)
  | envRead name, env => (env.read name, env)
  | envAssign name value, env => (JsVal.str value, env.set name value)
  | object fields, env => ((JsVal.obj (evalFields fields env).1), (evalFields fields env).2)
  | array items, env => ((JsVal.arr (evalItems items env).1), (evalItems items env).2)
/-- Evaluate the properties of an object literal in order. -/
def evalFields : List (String × JsExpr) → Env → List (String × JsVal) × Env
  | [], env => ([], env)
  | (k, e) :: rest, env =>
    ((k, (eval e env).1) :: (evalFields rest (eval e env).2).1,
      (evalFields rest (eval e env).2).2)
/-- Evaluate the elements of an array literal in order. -/
def evalItems : List JsExpr → Env → List JsVal × Env
  | [], env => ([], env)
  | e :: rest, env =>
    ((eval e env).1 :: (evalItems rest (eval e env).2).1,
      (evalItems rest (eval e env).2).2)
end

mutual
/-- Whether an expression holds no assignment. -/
def readsOnly : JsExpr → Bool
  | lit _ => true
  | envRead _ => true
  | envAssign _ _ => false
  | object fields => readsOnlyFields fields
  | array items => readsOnlyItems items
/-- No assignment in the properties of an object literal. -/
def readsOnlyFields : List (String × JsExpr) → Bool
  | [] => true
  | (_, e) :: rest => readsOnly e && readsOnlyFields rest
/-- No assignment in the elements of an array literal. -/
def readsOnlyItems : List JsExpr → Bool
  | [] => true
  | e :: rest => readsOnly e && readsOnlyItems rest
end

end JsExpr

open JsExpr

/-- One `{ name: ..., link: ... }` entry of a link list, as an expression. -/
def entryExpr (name link : String) : JsExpr :=
  object [("name", lit name), ("link", lit link)]

/-- The object literal bound to `config` in `config.js`, as an expression.
Commented-out entries are not part of the literal. -/
def configExpr : JsExpr :=
  object [
    ("gatsby", object [
      ("pathPrefix", lit ""),
      ("siteUrl", lit "")]),
    ("header", object [
      ("logoLink", lit ""),
      ("title", lit "How To Data"),
      ("links", array []),
      ("search", object [
        ("indexName", envRead "GATSBY_ALGOLIA_INDEX_NAME"),
        ("algoliaAppId", envRead "GATSBY_ALGOLIA_APP_ID"),
        ("algoliaSearchKey", envRead "GATSBY_ALGOLIA_SEARCH_KEY"),
        ("algoliaAdminKey", envRead "GATSBY_ALGOLIA_ADMIN_API_KEY")])]),
    ("siteMetadata", object [
      ("title", lit "How To Data - title"),
      ("description", lit "How To Data - desc"),
      ("keywords", lit "Docs, How To Data, 1.0"),
      ("docsLocation", lit "https://github.com/prisma/how-to-data-docs/tree/master/content"),
      ("twitter", object [
        ("site", lit "@howtodata"),
        ("creator", lit "@howtodata"),
        ("image", lit "/social/docs-social.png")]),
      ("og", object [
        ("site_name", lit "How To Data"),
        ("type", lit "website"),
        ("image", object [
          ("alt", lit "How To Data"),
          ("height", lit "630"),
          ("type", lit "image/png"),
          ("url", lit "/social/docs-social.png"),
          ("width", lit "1200")])])]),
    ("feedback", object [
      ("function_name", lit "*/.netlify/functions/index")]),
    ("footer", object [
      ("logoLink", lit "/"),
      ("title", lit "Prisma"),
      ("products", array [
        entryExpr "Prisma Client"
          "https://www.prisma.io/docs/reference/tools-and-interfaces/prisma-client/crud",
        entryExpr "Prisma 1 Cloud" "https://app.prisma.io/login"]),
      ("community", array [
        entryExpr "Meet the community" "https://www.prisma.io/community",
        entryExpr "Slack" "https://slack.prisma.io/",
        entryExpr "Github" "https://github.com/prisma",
        entryExpr "Discussions" "https://github.com/prisma/prisma/discussions",
        entryExpr "GraphQL Meetup" "https://www.meetup.com/graphql-berlin/",
        entryExpr "TypeScript Meetup" "https://www.meetup.com/TypeScript-Berlin/"]),
      ("resources", array [
        entryExpr "Docs" "/",
        entryExpr "Get started" "https://www.prisma.io/docs/getting-started/quickstart",
        entryExpr "API Reference"
          "https://www.prisma.io/docs/reference/tools-and-interfaces/prisma-client/generating-prisma-client",
        entryExpr "Examples" "https://github.com/prisma/prisma-examples",
        entryExpr "How to GraphQL" "https://www.howtographql.com/",
        entryExpr "PostgreSQL Tutorial" "https://www.prisma.io/tutorials/?tag=postgresql"]),
      ("company", array [
        entryExpr "About" "https://www.prisma.io/about",
        entryExpr "Jobs" "https://www.prisma.io/jobs",
        entryExpr "Blog" "https://www.prisma.io/blog/",
        entryExpr "Terms & Privacy"
          "https://gist.github.com/nikolasburk/c0f34b0cc50d3403e2e0d40c0e6510aa"]),
      ("newsletter", object [
        ("text", lit "Stay up to date with the latest features and changes to Prisma")]),
      ("findus", object [
        ("twitterLink", lit "https://twitter.com/prisma"),
        ("youtubeLink", lit "https://www.youtube.com/channel/UCptAHlN1gdwD89tFM3ENb6w"),
        ("fbLink", lit "https://www.facebook.com/prisma.io"),
        ("slackLink", lit "https://slack.prisma.io/"),
        ("gitLink", lit "https://github.com/prisma")])])]

/-- Running the module `config.js` in a process with environment `env`: the
literal is evaluated and assigned to `module.exports`. The result is the
exported value and the environment after the run. -/
def runModule (env : Env) : JsVal × Env := eval configExpr env

/-- An object literal that reads a variable and then assigns it, as a module
that does disturb the process would. -/
def assigningExpr : JsExpr :=
  object [("before", envRead "MODE"), ("after", envAssign "MODE" "build")]

/-! ## Theorems -/

/-- C1: when the four search variables are set, the four fields of
`header.search` hold exactly those values, each field the value of its own
variable, untransformed. -/
theorem search_fields_of_all_set (env : Env) (i a s k : String)
    (hi : env "GATSBY_ALGOLIA_INDEX_NAME" = some i)
    (ha : env "GATSBY_ALGOLIA_APP_ID" = some a)
    (hs : env "GATSBY_ALGOLIA_SEARCH_KEY" = some s)
    (hk : env "GATSBY_ALGOLIA_ADMIN_API_KEY" = some k) :
    search env = obj [("indexName", str i), ("algoliaAppId", str a),
      ("algoliaSearchKey", str s), ("algoliaAdminKey", str k)] := by
  show obj _ = _
  simp only [Env.read, hi, ha, hs, hk]

/-- Witness for C1 at an environment with the four variables set. -/
theorem search_fields_of_all_set_witness :
    search fullEnv = obj [("indexName", str "docs"), ("algoliaAppId", str "APP123"),
      ("algoliaSearchKey", str "search-key"), ("algoliaAdminKey", str "admin-key")] :=
  search_fields_of_all_set fullEnv "docs" "APP123" "search-key" "admin-key"
    (by decide) (by decide) (by decide) (by decide)

/-! ### Deep equality is equality -/

mutual
/-- Deep equality holds between a value and itself. -/
theorem structEq_refl : ∀ v : JsVal, structEq v v = true
  | JsVal.undefined => by simp [structEq]
  | JsVal.null => by simp [structEq]
  | JsVal.str s => by simp [structEq]
  | JsVal.obj fs => by simpa [structEq] using structEqFields_refl fs
  | JsVal.arr xs => by simpa [structEq] using structEqItems_refl xs
/-- Deep equality of a field list with itself. -/
theorem structEqFields_refl : ∀ fs : List (String × JsVal), structEqFields fs fs = true
  | [] => by simp [structEqFields]
  | (k, v) :: fs => by
    simp [structEqFields, structEq_refl v, structEqFields_refl fs]
/-- Deep equality of an element list with itself. -/
theorem structEqItems_refl : ∀ xs : List JsVal, structEqItems xs xs = true
  | [] => by simp [structEqItems]
  | v :: xs => by
    simp [structEqItems, structEq_refl v, structEqItems_refl xs]
end

mutual
/-- Deeply equal values are equal. -/
theorem eq_of_structEq : ∀ a b : JsVal, structEq a b = true → a = b
  | JsVal.undefined, b => by cases b <;> simp [structEq]
  | JsVal.null, b => by cases b <;> simp [structEq]
  | JsVal.str s, b => by cases b <;> simp [structEq]
  | JsVal.obj fs, b => by
    cases b <;> simp [structEq]
    exact eq_of_structEqFields fs _
  | JsVal.arr xs, b => by
    cases b <;> simp [structEq]
    exact eq_of_structEqItems xs _
/-- Deeply equal field lists are equal. -/
theorem eq_of_structEqFields :
    ∀ fs gs : List (String × JsVal), structEqFields fs gs = true → fs = gs
  | [], gs => by cases gs <;> simp [structEqFields]
  | (k, v) :: fs, gs => by
    cases gs with
    | nil => simp [structEqFields]
    | cons g gs =>
      obtain ⟨k2, v2⟩ := g
      simp only [structEqFields, Bool.and_eq_true, beq_iff_eq]
      rintro ⟨⟨hk, hv⟩, hs⟩
      rw [hk, eq_of_structEq v v2 hv, eq_of_structEqFields fs gs hs]
/-- Deeply equal element lists are equal. -/
theorem eq_of_structEqItems :
    ∀ xs ys : List JsVal, structEqItems xs ys = true → xs = ys
  | [], ys => by cases ys <;> simp [structEqItems]
  | v :: xs, ys => by
    cases ys with
    | nil => simp [structEqItems]
    | cons v2 ys =>
      simp only [structEqItems, Bool.and_eq_true]
      rintro ⟨hv, hs⟩
      rw [eq_of_structEq v v2 hv, eq_of_structEqItems xs ys hs]
end

/-- Deep equality decides equality of values. -/
theorem structEq_iff (a b : JsVal) : structEq a b = true ↔ a = b :=
  ⟨eq_of_structEq a b, fun h => h ▸ structEq_refl a⟩

/-! ### The search group -/

/-- C2: when none of the four search variables is set, the load still yields
a record (the loader is a total function, there is no error result), and its
four `header.search` fields are all `undefined`. -/
theorem search_fields_of_none_set (env : Env)
    (hi : env "GATSBY_ALGOLIA_INDEX_NAME" = none)
    (ha : env "GATSBY_ALGOLIA_APP_ID" = none)
    (hs : env "GATSBY_ALGOLIA_SEARCH_KEY" = none)
    (hk : env "GATSBY_ALGOLIA_ADMIN_API_KEY" = none) :
    (loadConfig env).1.getPath ["header", "search"] =
      obj [("indexName", undefined), ("algoliaAppId", undefined),
        ("algoliaSearchKey", undefined), ("algoliaAdminKey", undefined)] := by
  show obj _ = _
  simp only [Env.read, hi, ha, hs, hk]

/-- Witness for C2 at the environment with no variable set. -/
theorem search_fields_of_none_set_witness :
    (loadConfig emptyEnv).1.getPath ["header", "search"] =
      obj [("indexName", undefined), ("algoliaAppId", undefined),
        ("algoliaSearchKey", undefined), ("algoliaAdminKey", undefined)] :=
  search_fields_of_none_set emptyEnv rfl rfl rfl rfl

/-- C10: every search field depends on its own variable only, and a partly
set group is accepted: in any environment each `header.search` field is the
value of its variable when that variable is set and `undefined` when it is
absent, whatever the other three variables are. -/
theorem search_field_of_own_variable (env : Env) :
    (∀ v, env "GATSBY_ALGOLIA_INDEX_NAME" = some v → (search env).get "indexName" = str v) ∧
    (env "GATSBY_ALGOLIA_INDEX_NAME" = none → (search env).get "indexName" = undefined) ∧
    (∀ v, env "GATSBY_ALGOLIA_APP_ID" = some v → (search env).get "algoliaAppId" = str v) ∧
    (env "GATSBY_ALGOLIA_APP_ID" = none → (search env).get "algoliaAppId" = undefined) ∧
    (∀ v, env "GATSBY_ALGOLIA_SEARCH_KEY" = some v →
      (search env).get "algoliaSearchKey" = str v) ∧
    (env "GATSBY_ALGOLIA_SEARCH_KEY" = none →
      (search env).get "algoliaSearchKey" = undefined) ∧
    (∀ v, env "GATSBY_ALGOLIA_ADMIN_API_KEY" = some v →
      (search env).get "algoliaAdminKey" = str v) ∧
    (env "GATSBY_ALGOLIA_ADMIN_API_KEY" = none →
      (search env).get "algoliaAdminKey" = undefined) := by
  have hi : (search env).get "indexName" = env.read "GATSBY_ALGOLIA_INDEX_NAME" := rfl
  have ha : (search env).get "algoliaAppId" = env.read "GATSBY_ALGOLIA_APP_ID" := rfl
  have hs : (search env).get "algoliaSearchKey" = env.read "GATSBY_ALGOLIA_SEARCH_KEY" := rfl
  have hk : (search env).get "algoliaAdminKey" = env.read "GATSBY_ALGOLIA_ADMIN_API_KEY" := rfl
  rw [hi, ha, hs, hk]
  refine ⟨?_, ?_, ?_, ?_, ?_, ?_, ?_, ?_⟩ <;> intros <;> simp only [Env.read, *]

/-- Witness for C10: an index name with no admin key gives `indexName` set and
the admin key field `undefined`. -/
theorem search_field_of_own_variable_witness :
    (search indexOnlyEnv).get "indexName" = str "docs" ∧
    (search indexOnlyEnv).get "algoliaAdminKey" = undefined :=
  ⟨(search_field_of_own_variable indexOnlyEnv).1 "docs" (by decide),
   (search_field_of_own_variable indexOnlyEnv).2.2.2.2.2.2.2 (by decide)⟩

/-- C7 fails as stated: with only the index name set, the keys of
`header.search` are not `indexName, appId, searchKey, adminKey`, and not every
field holds a string. -/
theorem search_field_names_counterexample :
    (search indexOnlyEnv).keys ≠ ["indexName", "appId", "searchKey", "adminKey"] ∧
    ¬ (∀ k ∈ (search indexOnlyEnv).keys, ∃ s, (search indexOnlyEnv).get k = str s) := by
  constructor
  · decide
  · intro h
    obtain ⟨s, hs⟩ := h "algoliaAdminKey" (by decide)
    have hu : (search indexOnlyEnv).get "algoliaAdminKey" = undefined := rfl
    rw [hu] at hs
    cases hs

/-- C7 as amended: `header.search` has exactly the four fields `indexName`,
`algoliaAppId`, `algoliaSearchKey` and `algoliaAdminKey`, in this order, and
each holds what the read of its environment variable gives: a string, or
`undefined` when the variable is absent. -/
theorem search_field_names (env : Env) :
    (search env).keys =
      ["indexName", "algoliaAppId", "algoliaSearchKey", "algoliaAdminKey"] ∧
    (search env).get "indexName" = env.read "GATSBY_ALGOLIA_INDEX_NAME" ∧
    (search env).get "algoliaAppId" = env.read "GATSBY_ALGOLIA_APP_ID" ∧
    (search env).get "algoliaSearchKey" = env.read "GATSBY_ALGOLIA_SEARCH_KEY" ∧
    (search env).get "algoliaAdminKey" = env.read "GATSBY_ALGOLIA_ADMIN_API_KEY" ∧
    (∀ name, env.read name = undefined ∨ ∃ s, env.read name = str s) := by
  refine ⟨rfl, rfl, rfl, rfl, rfl, ?_⟩
  intro name
  unfold Env.read
  cases env name with
  | none => exact Or.inl rfl
  | some v => exact Or.inr ⟨v, rfl⟩

/-! ### The static lists -/

/-- C3: in every environment the five ordered list fields are the literal
sequences of the static definition, commented-out entries left out:
`header.links` is empty, `footer.products` has 2 entries, `footer.community`
6, `footer.resources` 6 and `footer.company` 4, and the first entry of
`footer.resources` is `{name: "Docs", link: "/"}`. -/
theorem list_fields_literal (env : Env) :
    (moduleExports env).getPath ["header", "links"] = arr [] ∧
    (moduleExports env).getPath ["footer", "products"] = arr [
      obj [("name", str "Prisma Client"),
        ("link", str "https://www.prisma.io/docs/reference/tools-and-interfaces/prisma-client/crud")],
      obj [("name", str "Prisma 1 Cloud"), ("link", str "https://app.prisma.io/login")]] ∧
    (moduleExports env).getPath ["footer", "community"] = arr [
      obj [("name", str "Meet the community"), ("link", str "https://www.prisma.io/community")],
      obj [("name", str "Slack"), ("link", str "https://slack.prisma.io/")],
      obj [("name", str "Github"), ("link", str "https://github.com/prisma")],
      obj [("name", str "Discussions"),
        ("link", str "https://github.com/prisma/prisma/discussions")],
      obj [("name", str "GraphQL Meetup"),
        ("link", str "https://www.meetup.com/graphql-berlin/")],
      obj [("name", str "TypeScript Meetup"),
        ("link", str "https://www.meetup.com/TypeScript-Berlin/")]] ∧
    (moduleExports env).getPath ["footer", "resources"] = arr [
      obj [("name", str "Docs"), ("link", str "/")],
      obj [("name", str "Get started"),
        ("link", str "https://www.prisma.io/docs/getting-started/quickstart")],
      obj [("name", str "API Reference"),
        ("link", str "https://www.prisma.io/docs/reference/tools-and-interfaces/prisma-client/generating-prisma-client")],
      obj [("name", str "Examples"), ("link", str "https://github.com/prisma/prisma-examples")],
      obj [("name", str "How to GraphQL"), ("link", str "https://www.howtographql.com/")],
      obj [("name", str "PostgreSQL Tutorial"),
        ("link", str "https://www.prisma.io/tutorials/?tag=postgresql")]] ∧
    (moduleExports env).getPath ["footer", "company"] = arr [
      obj [("name", str "About"), ("link", str "https://www.prisma.io/about")],
      obj [("name", str "Jobs"), ("link", str "https://www.prisma.io/jobs")],
      obj [("name", str "Blog"), ("link", str "https://www.prisma.io/blog/")],
      obj [("name", str "Terms & Privacy"),
        ("link", str "https://gist.github.com/nikolasburk/c0f34b0cc50d3403e2e0d40c0e6510aa")]] ∧
    (linkLists env).map (fun l => l.items.length) = [0, 2, 6, 6, 4] ∧
    ((moduleExports env).getPath ["footer", "resources"]).items.head? =
      some (obj [("name", str "Docs"), ("link", str "/")]) :=
  ⟨rfl, rfl, rfl, rfl, rfl, rfl, rfl⟩

/-- C6: every entry of the five link lists has a string `link` that begins
with a slash or is an `http`/`https` URL with `://` and a non-empty host. -/
theorem links_well_formed (env : Env) :
    ∀ l ∈ linkLists env, ∀ e ∈ l.items,
      ∃ s, e.get "link" = str s ∧
        (isRootRelative s.data = true ∨ isAbsoluteUrl s.data = true) := by
  have hconst : linkLists env = linkLists emptyEnv := rfl
  have hall : (linkLists emptyEnv).all (fun l => l.items.all entryLinkOk) = true := by
    decide
  rw [hconst]
  intro l hl e he
  have h1 := List.all_eq_true.mp hall l hl
  have h2 : entryLinkOk e = true := List.all_eq_true.mp h1 e he
  unfold entryLinkOk at h2
  cases hget : e.get "link" with
  | str s =>
    rw [hget] at h2
    refine ⟨s, rfl, ?_⟩
    simpa [wellFormedLink] using h2
  | undefined => rw [hget] at h2; cases h2
  | null => rw [hget] at h2; cases h2
  | obj fs => rw [hget] at h2; cases h2
  | arr xs => rw [hget] at h2; cases h2

/-- Witness for C6 at the first entry of `footer.resources`, whose link is
the root-relative path `/`. -/
theorem links_well_formed_witness :
    (moduleExports emptyEnv).getPath ["footer", "resources"] ∈ linkLists emptyEnv ∧
    entry "Docs" "/" ∈ ((moduleExports emptyEnv).getPath ["footer", "resources"]).items ∧
    ∃ s, (entry "Docs" "/").get "link" = str s ∧
      (isRootRelative s.data = true ∨ isAbsoluteUrl s.data = true) :=
  have hl : (moduleExports emptyEnv).getPath ["footer", "resources"] ∈ linkLists emptyEnv :=
    List.Mem.tail _ (List.Mem.tail _ (List.Mem.tail _ (List.Mem.head _)))
  have he : entry "Docs" "/" ∈
      ((moduleExports emptyEnv).getPath ["footer", "resources"]).items :=
    List.Mem.head _
  ⟨hl, he, links_well_formed emptyEnv _ hl _ he⟩

/-- The link predicate is not vacuous: a bare word, a scheme with no host
and a single-slash scheme are rejected. -/
theorem wellFormedLink_rejects :
    wellFormedLink "docs" = false ∧ wellFormedLink "https://" = false ∧
    wellFormedLink "https:///path" = false ∧ wellFormedLink "http:/host" = false ∧
    wellFormedLink "ftp://host/" = false ∧ wellFormedLink "" = false := by
  decide

/-! ### Loading is a function of the environment -/

mutual
/-- Evaluating an expression without assignment leaves the environment as it
was. -/
theorem eval_readsOnly :
    ∀ (e : JsExpr) (env : Env), readsOnly e = true → (eval e env).2 = env
  | JsExpr.lit _, _, _ => rfl
  | JsExpr.envRead _, _, _ => rfl
  | JsExpr.envAssign _ _, _, h => by simp [readsOnly] at h
  | JsExpr.object fields, env, h => by
    simpa [eval] using evalFields_readsOnly fields env (by simpa [readsOnly] using h)
  | JsExpr.array items, env, h => by
    simpa [eval] using evalItems_readsOnly items env (by simpa [readsOnly] using h)
/-- Evaluating properties without assignment leaves the environment as it
was. -/
theorem evalFields_readsOnly :
    ∀ (fields : List (String × JsExpr)) (env : Env),
      readsOnlyFields fields = true → (evalFields fields env).2 = env
  | [], _, _ => rfl
  | (_, e) :: rest, env, h => by
    simp only [readsOnlyFields, Bool.and_eq_true] at h
    simp only [evalFields]
    rw [eval_readsOnly e env h.1, evalFields_readsOnly rest env h.2]
/-- Evaluating elements without assignment leaves the environment as it
was. -/
theorem evalItems_readsOnly :
    ∀ (items : List JsExpr) (env : Env),
      readsOnlyItems items = true → (evalItems items env).2 = env
  | [], _, _ => rfl
  | e :: rest, env, h => by
    simp only [readsOnlyItems, Bool.and_eq_true] at h
    simp only [evalItems]
    rw [eval_readsOnly e env h.1, evalItems_readsOnly rest env h.2]
end

/-- The literal of `config.js` holds no assignment. -/
theorem configExpr_readsOnly : readsOnly configExpr = true := by
  decide

/-- The value the literal of `config.js` evaluates to is the record
`config env`. -/
theorem eval_configExpr_value (env : Env) : (eval configExpr env).1 = config env :=
  rfl

/-- A module that assigns a variable it has read does not give the same
record twice: the second run sees the assignment of the first. -/
theorem assigningExpr_not_idempotent :
    (eval assigningExpr emptyEnv).1 =
      obj [("before", undefined), ("after", str "build")] ∧
    (eval assigningExpr (eval assigningExpr emptyEnv).2).1 =
      obj [("before", str "build"), ("after", str "build")] ∧
    structEq (eval assigningExpr emptyEnv).1
      (eval assigningExpr (eval assigningExpr emptyEnv).2).1 = false := by
  refine ⟨rfl, rfl, ?_⟩
  decide

/-- C4: loading is a pure function of the environment. Running the module
evaluates its literal property by property; the run exports the record
`config env` and leaves the environment as it found it, so a second run, made
in the environment the first one left, exports a record structurally equal to
the first. -/
theorem load_twice_equal (env : Env) :
    (runModule env).1 = moduleExports env ∧
    (runModule env).2 = env ∧
    structEq (runModule env).1 (runModule (runModule env).2).1 = true := by
  have hkeep : (runModule env).2 = env :=
    eval_readsOnly configExpr env configExpr_readsOnly
  refine ⟨eval_configExpr_value env, hkeep, ?_⟩
  rw [hkeep]
  exact structEq_refl _

/-- C9: the environment reaches the record through `header.search` only. The
record has the five groups `gatsby`, `header`, `siteMetadata`, `feedback` and
`footer`, and `header` the four fields `logoLink`, `title`, `links` and
`search`; any two environments give the same value for each of them but
`header.search`, and the same record once `header.search` is overwritten with
a common value; and two environments that agree on the four search variables
give the same record. -/
theorem env_reaches_search_only (env1 env2 : Env) :
    (moduleExports env1).keys = ["gatsby", "header", "siteMetadata", "feedback", "footer"] ∧
    ((moduleExports env1).get "header").keys = ["logoLink", "title", "links", "search"] ∧
    (∀ k ∈ ["gatsby", "siteMetadata", "feedback", "footer"],
      (moduleExports env1).get k = (moduleExports env2).get k) ∧
    (∀ k ∈ ["logoLink", "title", "links"],
      (moduleExports env1).getPath ["header", k] =
        (moduleExports env2).getPath ["header", k]) ∧
    (∀ x, setPath x ["header", "search"] (moduleExports env1) =
      setPath x ["header", "search"] (moduleExports env2)) ∧
    (env1 "GATSBY_ALGOLIA_INDEX_NAME" = env2 "GATSBY_ALGOLIA_INDEX_NAME" →
      env1 "GATSBY_ALGOLIA_APP_ID" = env2 "GATSBY_ALGOLIA_APP_ID" →
      env1 "GATSBY_ALGOLIA_SEARCH_KEY" = env2 "GATSBY_ALGOLIA_SEARCH_KEY" →
      env1 "GATSBY_ALGOLIA_ADMIN_API_KEY" = env2 "GATSBY_ALGOLIA_ADMIN_API_KEY" →
      moduleExports env1 = moduleExports env2) := by
  refine ⟨rfl, rfl, ?_, ?_, fun _ => rfl, ?_⟩
  · intro k hk
    simp only [List.mem_cons, List.mem_singleton, List.not_mem_nil, or_false] at hk
    rcases hk with rfl | rfl | rfl | rfl <;> rfl
  · intro k hk
    simp only [List.mem_cons, List.mem_singleton, List.not_mem_nil, or_false] at hk
    rcases hk with rfl | rfl | rfl <;> rfl
  · intro hi ha hs hk
    simp only [moduleExports, config, Env.read, hi, ha, hs, hk]

/-- Witness for C9: two different environments that agree on the four search
variables give the same record. -/
theorem env_reaches_search_only_witness :
    fullEnv "HOME" ≠ homeEnv "HOME" ∧ moduleExports fullEnv = moduleExports homeEnv :=
  ⟨by decide,
   (env_reaches_search_only fullEnv homeEnv).2.2.2.2.2
     (by decide) (by decide) (by decide) (by decide)⟩

/-! ### The admin key -/

/-- C8 fails as stated: two environments that differ in the admin key only
give different exported records. -/
theorem admin_key_exported_counterexample :
    (∀ k, k ≠ "GATSBY_ALGOLIA_ADMIN_API_KEY" → fullEnv k = otherAdminEnv k) ∧
    moduleExports fullEnv ≠ moduleExports otherAdminEnv := by
  constructor
  · intro k hk
    simp [otherAdminEnv, Env.set, hk]
  · intro h
    have h2 := congrArg (fun r => r.getPath ["header", "search", "algoliaAdminKey"]) h
    have h3 : str "admin-key" = str "other-admin-key" := h2
    injection h3 with h4
    exact absurd h4 (by decide)

/-- C8 as amended: the exported record carries the admin key, as read from
`GATSBY_ALGOLIA_ADMIN_API_KEY`, in `header.search.algoliaAdminKey`; two
environments that differ in that variable only give records that are equal
everywhere else, that is, equal once that field is overwritten with a common
value. -/
theorem admin_key_exported (env1 env2 : Env)
    (h : ∀ k, k ≠ "GATSBY_ALGOLIA_ADMIN_API_KEY" → env1 k = env2 k) :
    (moduleExports env1).getPath ["header", "search", "algoliaAdminKey"] =
      env1.read "GATSBY_ALGOLIA_ADMIN_API_KEY" ∧
    (moduleExports env2).getPath ["header", "search", "algoliaAdminKey"] =
      env2.read "GATSBY_ALGOLIA_ADMIN_API_KEY" ∧
    (∀ x, setPath x ["header", "search", "algoliaAdminKey"] (moduleExports env1) =
      setPath x ["header", "search", "algoliaAdminKey"] (moduleExports env2)) := by
  refine ⟨rfl, rfl, ?_⟩
  intro x
  have hi := h "GATSBY_ALGOLIA_INDEX_NAME" (by decide)
  have ha := h "GATSBY_ALGOLIA_APP_ID" (by decide)
  have hs := h "GATSBY_ALGOLIA_SEARCH_KEY" (by decide)
  show obj _ = obj _
  simp only [Env.read, hi, ha, hs]
  rfl

/-- Witness for C8 as amended, at two environments that differ in the admin
key only. -/
theorem admin_key_exported_witness :
    (moduleExports fullEnv).getPath ["header", "search", "algoliaAdminKey"] =
      str "admin-key" ∧
    (moduleExports otherAdminEnv).getPath ["header", "search", "algoliaAdminKey"] =
      str "other-admin-key" ∧
    (∀ x, setPath x ["header", "search", "algoliaAdminKey"] (moduleExports fullEnv) =
      setPath x ["header", "search", "algoliaAdminKey"] (moduleExports otherAdminEnv)) :=
  admin_key_exported fullEnv otherAdminEnv
    (fun k hk => by simp [otherAdminEnv, Env.set, hk])

/-! ### JSON round trip of the social metadata -/

namespace JSON

/-- The `\u00XX` escape written for a control character decodes to it. -/
theorem unicodeEscape_control :
    ∀ n, n < 32 →
      unicodeEscape '0' '0' (hexDigit (n / 16)) (hexDigit (n % 16)) = some (Char.ofNat n) := by
  decide


/-- A closing quote ends the string body. -/
theorem parseStringBody_dquote (rest : List Char) :
    parseStringBody (dquote :: rest) = some ([], rest) := by
  rw [parseStringBody.eq_def]; simp

/-- An unescaped character is read as it is. -/
theorem parseStringBody_plain (c : Char) (rest : List Char)
    (h1 : c ≠ dquote) (h2 : c ≠ backslash) (h3 : ¬ c.toNat < 32) :
    parseStringBody (c :: rest) =
      match parseStringBody rest with
      | some (cs, rem) => some (c :: cs, rem)
      | none => none := by
  rw [parseStringBody.eq_def]; simp [h1, h2, h3]

/-- A two-character escape is read as the character it stands for. -/
theorem parseStringBody_simple (e u : Char) (rest : List Char) (hu : e ≠ 'u')
    (hd : (if e = dquote then some dquote
            else if e = backslash then some backslash
            else if e = '/' then some '/'
            else if e = 'b' then some (Char.ofNat 8)
            else if e = 'f' then some (Char.ofNat 12)
            else if e = 'n' then some (Char.ofNat 10)
            else if e = 'r' then some (Char.ofNat 13)
            else if e = 't' then some (Char.ofNat 9)
            else none) = some u) :
    parseStringBody (backslash :: e :: rest) =
      match parseStringBody rest with
      | some (cs, rem) => some (u :: cs, rem)
      | none => none := by
  rw [parseStringBody.eq_def]
  have hb : backslash ≠ dquote := by decide
  simp only [hb, if_false, if_true, hu, ↓reduceIte]
  rw [hd]
  cases parseStringBody rest <;> rfl

/-- A `\uXXXX` escape is read as the character it stands for. -/
theorem parseStringBody_unicode (a b c d u : Char) (rest : List Char)
    (hd : unicodeEscape a b c d = some u) :
    parseStringBody (backslash :: 'u' :: a :: b :: c :: d :: rest) =
      match parseStringBody rest with
      | some (cs, rem) => some (u :: cs, rem)
      | none => none := by
  rw [parseStringBody.eq_def]
  have hb : backslash ≠ dquote := by decide
  simp only [hb, if_false, if_true, ↓reduceIte]
  rw [hd]
  cases parseStringBody rest <;> rfl


/-- A character is determined by its code point. -/
theorem char_eq_of_toNat (c : Char) (n : Nat) (h : c.toNat = n) : Char.ofNat n = c := by
  subst h
  exact Char.ofNat_toNat c

/-- Reading the escaped form of a list of characters, up to the closing quote,
gives the characters back. -/
theorem parseStringBody_escapeChars (cs rest : List Char) :
    parseStringBody (escapeChars cs ++ dquote :: rest) = some (cs, rest) := by
  induction cs with
  | nil => exact parseStringBody_dquote rest
  | cons c cs ih =>
    simp only [escapeChars, escapeChar]
    split_ifs with h1 h2 h3 h4 h5 h6 h7 h8
    · subst h1
      simp only [List.cons_append, List.nil_append, List.append_assoc]
      rw [parseStringBody_simple dquote dquote _ (by decide) (by decide), ih]
    · subst h2
      simp only [List.cons_append, List.nil_append, List.append_assoc]
      rw [parseStringBody_simple backslash backslash _ (by decide) (by decide), ih]
    · simp only [List.cons_append, List.nil_append, List.append_assoc]
      rw [parseStringBody_simple 'b' (Char.ofNat 8) _ (by decide) (by decide), ih,
        char_eq_of_toNat c 8 h3]
    · simp only [List.cons_append, List.nil_append, List.append_assoc]
      rw [parseStringBody_simple 'f' (Char.ofNat 12) _ (by decide) (by decide), ih,
        char_eq_of_toNat c 12 h4]
    · simp only [List.cons_append, List.nil_append, List.append_assoc]
      rw [parseStringBody_simple 'n' (Char.ofNat 10) _ (by decide) (by decide), ih,
        char_eq_of_toNat c 10 h5]
    · simp only [List.cons_append, List.nil_append, List.append_assoc]
      rw [parseStringBody_simple 'r' (Char.ofNat 13) _ (by decide) (by decide), ih,
        char_eq_of_toNat c 13 h6]
    · simp only [List.cons_append, List.nil_append, List.append_assoc]
      rw [parseStringBody_simple 't' (Char.ofNat 9) _ (by decide) (by decide), ih,
        char_eq_of_toNat c 9 h7]
    · simp only [List.cons_append, List.nil_append, List.append_assoc]
      rw [parseStringBody_unicode _ _ _ _ c _
        ((unicodeEscape_control c.toNat h8).trans (congrArg some (Char.ofNat_toNat c))), ih]
    · simp only [List.cons_append, List.nil_append, List.append_assoc]
      rw [parseStringBody_plain c _ h1 h2 h8, ih]


/-- Input that starts with a character other than white space is kept. -/
theorem skipWs_cons (c : Char) (rest : List Char) (h : isWs c = false) :
    skipWs (c :: rest) = c :: rest := by
  simp [skipWs, h]

/-- The decoder reads the literal `null`. -/
theorem parseValue_null (fuel : Nat) (rest : List Char) :
    parseValue (fuel + 1) ('n' :: 'u' :: 'l' :: 'l' :: rest) = some (JsVal.null, rest) := by
  rw [parseValue.eq_def]
  simp only [skipWs_cons 'n' _ (by decide)]
  have h1 : ('n' : Char) ≠ dquote := by decide
  simp [h1]

/-- At an opening quote the decoder reads a string. -/
theorem parseValue_str (fuel : Nat) (body : List Char) :
    parseValue (fuel + 1) (dquote :: body) =
      match parseStringBody body with
      | some (cs, rem) => some (JsVal.str (String.mk cs), rem)
      | none => none := by
  rw [parseValue.eq_def]
  simp only [skipWs_cons dquote _ (by decide)]
  simp

/-- The decoder reads the empty object. -/
theorem parseValue_obj_empty (fuel : Nat) (rest : List Char) :
    parseValue (fuel + 1) (lbrace :: rbrace :: rest) = some (JsVal.obj [], rest) := by
  rw [parseValue.eq_def]
  simp only [skipWs_cons lbrace _ (by decide), skipWs_cons rbrace _ (by decide)]
  have h1 : lbrace ≠ dquote := by decide
  have h2 : lbrace ≠ 'n' := by decide
  simp [h1, h2]

/-- At an opening brace followed by a quote the decoder reads members. -/
theorem parseValue_obj (fuel : Nat) (body : List Char) :
    parseValue (fuel + 1) (lbrace :: dquote :: body) =
      match parseMembers fuel (dquote :: body) with
      | some (fields, rem) => some (JsVal.obj fields, rem)
      | none => none := by
  rw [parseValue.eq_def]
  simp only [skipWs_cons lbrace _ (by decide), skipWs_cons dquote _ (by decide)]
  have h1 : lbrace ≠ dquote := by decide
  have h2 : lbrace ≠ 'n' := by decide
  have h3 : dquote ≠ rbrace := by decide
  simp [h1, h2, h3]

/-- The decoder reads the empty array. -/
theorem parseValue_arr_empty (fuel : Nat) (rest : List Char) :
    parseValue (fuel + 1) ('[' :: ']' :: rest) = some (JsVal.arr [], rest) := by
  rw [parseValue.eq_def]
  simp only [skipWs_cons '[' _ (by decide), skipWs_cons ']' _ (by decide)]
  have h1 : ('[' : Char) ≠ dquote := by decide
  have h2 : ('[' : Char) ≠ lbrace := by decide
  simp [h1, h2]

/-- At an opening bracket followed by an element the decoder reads elements. -/
theorem parseValue_arr (fuel : Nat) (c : Char) (body : List Char)
    (hws : isWs c = false) (hc : c ≠ ']') :
    parseValue (fuel + 1) ('[' :: c :: body) =
      match parseElements fuel (c :: body) with
      | some (items, rem) => some (JsVal.arr items, rem)
      | none => none := by
  rw [parseValue.eq_def]
  simp only [skipWs_cons '[' _ (by decide), skipWs_cons c _ hws]
  have h1 : ('[' : Char) ≠ dquote := by decide
  have h2 : ('[' : Char) ≠ lbrace := by decide
  simp [h1, h2, hc]

/-- The last member of an object, followed by the closing brace. -/
theorem parseMembers_last (fuel : Nat) (body k rem2 rem4 : List Char) (v : JsVal)
    (hk : parseStringBody body = some (k, ':' :: rem2))
    (hv : parseValue fuel rem2 = some (v, rbrace :: rem4)) :
    parseMembers (fuel + 1) (dquote :: body) = some ([(String.mk k, v)], rem4) := by
  rw [parseMembers.eq_def]
  simp only [skipWs_cons dquote _ (by decide), hk, skipWs_cons ':' _ (by decide), hv,
    skipWs_cons rbrace _ (by decide)]
  simp

/-- A member followed by a comma and further members. -/
theorem parseMembers_more (fuel : Nat) (body k rem2 rem4 rem5 : List Char) (v : JsVal)
    (fields : List (String × JsVal))
    (hk : parseStringBody body = some (k, ':' :: rem2))
    (hv : parseValue fuel rem2 = some (v, ',' :: rem4))
    (hr : parseMembers fuel rem4 = some (fields, rem5)) :
    parseMembers (fuel + 1) (dquote :: body) = some ((String.mk k, v) :: fields, rem5) := by
  rw [parseMembers.eq_def]
  simp only [skipWs_cons dquote _ (by decide), hk, skipWs_cons ':' _ (by decide), hv,
    skipWs_cons ',' _ (by decide), hr]
  have h1 : (',' : Char) ≠ rbrace := by decide
  simp [h1]

/-- The last element of an array, followed by the closing bracket. -/
theorem parseElements_last (fuel : Nat) (input rem2 : List Char) (v : JsVal)
    (hv : parseValue fuel input = some (v, ']' :: rem2)) :
    parseElements (fuel + 1) input = some ([v], rem2) := by
  rw [parseElements.eq_def]
  simp only [hv, skipWs_cons ']' _ (by decide)]
  simp

/-- An element followed by a comma and further elements. -/
theorem parseElements_more (fuel : Nat) (input rem2 rem3 : List Char) (v : JsVal)
    (items : List JsVal)
    (hv : parseValue fuel input = some (v, ',' :: rem2))
    (hr : parseElements fuel rem2 = some (items, rem3)) :
    parseElements (fuel + 1) input = some (v :: items, rem3) := by
  rw [parseElements.eq_def]
  simp only [hv, skipWs_cons ',' _ (by decide), hr]
  have h1 : (',' : Char) ≠ ']' := by decide
  simp [h1]


/-- Joining a text with at least one more text puts a comma between them. -/
theorem joinComma_cons (m : List Char) (ms : List (List Char)) (h : ms ≠ []) :
    joinComma (m :: ms) = m ++ ',' :: joinComma ms := by
  cases ms with
  | nil => exact absurd rfl h
  | cons u rest => rfl

/-- A join that is not empty joins at least one text. -/
theorem joinComma_ne_nil (ms : List (List Char)) (c : Char) (body : List Char)
    (h : joinComma ms = c :: body) : ms ≠ [] := by
  intro hnil
  subst hnil
  cases h

mutual
/-- The decoder reads the text of a value without `undefined` back to that
value, whatever follows the text, given enough nested calls. -/
theorem parseValue_stringifyChars :
    ∀ v : JsVal, jsonSafe v = true →
      ∃ c t, stringifyChars v = some (c :: t) ∧ isWs c = false ∧ c ≠ ']' ∧
        ∀ fuel rest, need v ≤ fuel → parseValue fuel (c :: t ++ rest) = some (v, rest)
  | JsVal.undefined, h => by simp [jsonSafe] at h
  | JsVal.null, _ => by
    refine ⟨'n', ['u', 'l', 'l'], rfl, by decide, by decide, ?_⟩
    intro fuel rest hf
    obtain ⟨f, rfl⟩ : ∃ f, fuel = f + 1 := ⟨fuel - 1, by simp only [need] at hf; omega⟩
    exact parseValue_null f rest
  | JsVal.str s, _ => by
    refine ⟨dquote, escapeChars s.data ++ [dquote], rfl, by decide, by decide, ?_⟩
    intro fuel rest hf
    obtain ⟨f, rfl⟩ : ∃ f, fuel = f + 1 := ⟨fuel - 1, by simp only [need] at hf; omega⟩
    have hb : (escapeChars s.data ++ [dquote]) ++ rest = escapeChars s.data ++ dquote :: rest := by
      simp
    rw [List.cons_append, hb, parseValue_str, parseStringBody_escapeChars]
  | JsVal.obj fs, h => by
    refine ⟨lbrace, joinComma (members fs) ++ [rbrace], rfl, by decide, by decide, ?_⟩
    intro fuel rest hf
    obtain ⟨f, rfl⟩ : ∃ f, fuel = f + 1 := ⟨fuel - 1, by simp only [need] at hf; omega⟩
    cases hfs : fs with
    | nil =>
      simp only [members, joinComma, List.nil_append, List.cons_append]
      exact parseValue_obj_empty f rest
    | cons p ps =>
      have hsafe : jsonSafeFields (p :: ps) = true := by
        rw [← hfs]; simpa [jsonSafe] using h
      have hneed : needFields (p :: ps) ≤ f := by
        rw [← hfs]; simp only [need] at hf; omega
      obtain ⟨body, hbody, hparse⟩ := parseMembers_members (p :: ps) hsafe (by simp)
      have hb : (joinComma (members (p :: ps)) ++ [rbrace]) ++ rest =
          dquote :: (body ++ rbrace :: rest) := by
        rw [hbody]; simp
      rw [List.cons_append, hb, parseValue_obj, ← List.cons_append, hparse f rest hneed]
  | JsVal.arr xs, h => by
    refine ⟨'[', joinComma (elements xs) ++ [']'], rfl, by decide, by decide, ?_⟩
    intro fuel rest hf
    obtain ⟨f, rfl⟩ : ∃ f, fuel = f + 1 := ⟨fuel - 1, by simp only [need] at hf; omega⟩
    cases hxs : xs with
    | nil =>
      simp only [elements, joinComma, List.nil_append, List.cons_append]
      exact parseValue_arr_empty f rest
    | cons p ps =>
      have hsafe : jsonSafeItems (p :: ps) = true := by
        rw [← hxs]; simpa [jsonSafe] using h
      have hneed : needItems (p :: ps) ≤ f := by
        rw [← hxs]; simp only [need] at hf; omega
      obtain ⟨c, body, hbody, hws, hc, hparse⟩ :=
        parseElements_elements (p :: ps) hsafe (by simp)
      have hb : (joinComma (elements (p :: ps)) ++ [']']) ++ rest =
          c :: (body ++ ']' :: rest) := by
        rw [hbody]; simp
      rw [List.cons_append, hb, parseValue_arr f c _ hws hc, ← List.cons_append,
        hparse f rest hneed]
/-- The decoder reads the member texts of a field list without `undefined`
back to that list. -/
theorem parseMembers_members :
    ∀ fs : List (String × JsVal), jsonSafeFields fs = true → fs ≠ [] →
      ∃ body, joinComma (members fs) = dquote :: body ∧
        ∀ fuel rest, needFields fs ≤ fuel →
          parseMembers fuel (dquote :: body ++ rbrace :: rest) = some (fs, rest)
  | [], _, hne => absurd rfl hne
  | (k, v) :: fs, h, _ => by
    simp only [jsonSafeFields, Bool.and_eq_true] at h
    obtain ⟨c, t, ht, hws, -, hparse⟩ := parseValue_stringifyChars v h.1
    have hm : members ((k, v) :: fs) = (quote k ++ ':' :: c :: t) :: members fs := by
      simp only [members, ht]
    cases hfs : fs with
    | nil =>
      refine ⟨(escapeChars k.data ++ [dquote]) ++ ':' :: c :: t, ?_, ?_⟩
      · rw [← hfs, hm, hfs]; rfl
      · intro fuel rest hf
        obtain ⟨f, rfl⟩ : ∃ f, fuel = f + 1 :=
          ⟨fuel - 1, by simp only [needFields] at hf; omega⟩
        have hneed : need v ≤ f := by simp only [needFields] at hf; omega
        refine parseMembers_last f _ k.data (c :: t ++ rbrace :: rest) rest v ?_
          (hparse f (rbrace :: rest) hneed)
        have hb : ((escapeChars k.data ++ [dquote]) ++ ':' :: c :: t) ++ rbrace :: rest =
            escapeChars k.data ++ dquote :: (':' :: (c :: t ++ rbrace :: rest)) := by
          simp
        have hs := parseStringBody_escapeChars k.data (':' :: (c :: t ++ rbrace :: rest))
        rw [← hb] at hs
        exact hs
    | cons p ps =>
      have hsafe : jsonSafeFields (p :: ps) = true := by rw [← hfs]; exact h.2
      obtain ⟨body2, hbody2, hparse2⟩ := parseMembers_members (p :: ps) hsafe (by simp)
      have hne : members (p :: ps) ≠ [] := joinComma_ne_nil _ _ _ hbody2
      refine ⟨(escapeChars k.data ++ [dquote]) ++ ':' :: c :: t ++ ',' :: dquote :: body2,
        ?_, ?_⟩
      · rw [← hfs, hm, hfs, joinComma_cons _ _ hne, hbody2]
        simp [quote]
      · intro fuel rest hf
        obtain ⟨f, rfl⟩ : ∃ f, fuel = f + 1 :=
          ⟨fuel - 1, by simp only [needFields] at hf; omega⟩
        have hneed : need v ≤ f := by simp only [needFields] at hf; omega
        have hneed2 : needFields (p :: ps) ≤ f := by
          simp only [needFields] at hf ⊢; omega
        refine parseMembers_more f _ k.data (c :: t ++ ',' :: (dquote :: body2 ++ rbrace :: rest))
          (dquote :: body2 ++ rbrace :: rest) rest v (p :: ps) ?_
          (hparse f _ hneed) (hparse2 f rest hneed2)
        have hb : ((escapeChars k.data ++ [dquote]) ++ ':' :: c :: t ++ ',' :: dquote :: body2)
              ++ rbrace :: rest =
            escapeChars k.data ++ dquote ::
              (':' :: (c :: t ++ ',' :: (dquote :: body2 ++ rbrace :: rest))) := by
          simp
        have hs := parseStringBody_escapeChars k.data
          (':' :: (c :: t ++ ',' :: (dquote :: body2 ++ rbrace :: rest)))
        rw [← hb] at hs
        exact hs
/-- The decoder reads the element texts of an array without `undefined` back
to its elements. -/
theorem parseElements_elements :
    ∀ xs : List JsVal, jsonSafeItems xs = true → xs ≠ [] →
      ∃ c body, joinComma (elements xs) = c :: body ∧ isWs c = false ∧ c ≠ ']' ∧
        ∀ fuel rest, needItems xs ≤ fuel →
          parseElements fuel (c :: body ++ ']' :: rest) = some (xs, rest)
  | [], _, hne => absurd rfl hne
  | v :: xs, h, _ => by
    simp only [jsonSafeItems, Bool.and_eq_true] at h
    obtain ⟨c, t, ht, hws, hc, hparse⟩ := parseValue_stringifyChars v h.1
    have hm : elements (v :: xs) = (c :: t) :: elements xs := by
      simp only [elements, ht]
    cases hxs : xs with
    | nil =>
      refine ⟨c, t, ?_, hws, hc, ?_⟩
      · rw [← hxs, hm, hxs]; rfl
      · intro fuel rest hf
        obtain ⟨f, rfl⟩ : ∃ f, fuel = f + 1 :=
          ⟨fuel - 1, by simp only [needItems] at hf; omega⟩
        have hneed : need v ≤ f := by simp only [needItems] at hf; omega
        exact parseElements_last f _ rest v (hparse f (']' :: rest) hneed)
    | cons p ps =>
      have hsafe : jsonSafeItems (p :: ps) = true := by rw [← hxs]; exact h.2
      obtain ⟨c2, body2, hbody2, -, -, hparse2⟩ :=
        parseElements_elements (p :: ps) hsafe (by simp)
      have hne : elements (p :: ps) ≠ [] := joinComma_ne_nil _ _ _ hbody2
      refine ⟨c, t ++ ',' :: c2 :: body2, ?_, hws, hc, ?_⟩
      · rw [← hxs, hm, hxs, joinComma_cons _ _ hne, hbody2]
        simp
      · intro fuel rest hf
        obtain ⟨f, rfl⟩ : ∃ f, fuel = f + 1 :=
          ⟨fuel - 1, by simp only [needItems] at hf; omega⟩
        have hneed : need v ≤ f := by simp only [needItems] at hf; omega
        have hneed2 : needItems (p :: ps) ≤ f := by
          simp only [needItems] at hf ⊢; omega
        have hb : c :: (t ++ ',' :: c2 :: body2) ++ ']' :: rest =
            c :: t ++ ',' :: (c2 :: body2 ++ ']' :: rest) := by
          simp
        rw [hb]
        exact parseElements_more f _ (c2 :: body2 ++ ']' :: rest) rest v (p :: ps)
          (hparse f _ hneed) (hparse2 f rest hneed2)
end


/-- A join is at least as long as its first text and the join of the rest. -/
theorem length_joinComma_cons (m : List Char) (ms : List (List Char)) :
    m.length + (joinComma ms).length ≤ (joinComma (m :: ms)).length := by
  cases ms with
  | nil => simp [joinComma]
  | cons u rest =>
    rw [joinComma_cons m (u :: rest) (by simp)]
    simp only [List.length_append, List.length_cons]
    omega

mutual
/-- The text of a value is longer than the number of nested calls reading it
needs. -/
theorem need_le_length :
    ∀ v : JsVal, jsonSafe v = true → ∀ t, stringifyChars v = some t → need v + 1 ≤ t.length
  | JsVal.undefined, h, _, _ => by simp [jsonSafe] at h
  | JsVal.null, _, t, ht => by
    simp only [stringifyChars, Option.some.injEq] at ht
    subst ht
    simp [need]
  | JsVal.str s, _, t, ht => by
    simp only [stringifyChars, Option.some.injEq] at ht
    subst ht
    simp [need, quote]
  | JsVal.obj fs, h, t, ht => by
    simp only [stringifyChars, Option.some.injEq] at ht
    subst ht
    have hfs := needFields_le_length fs (by simpa [jsonSafe] using h)
    simp only [need, List.length_cons, List.length_append, List.length_nil]
    omega
  | JsVal.arr xs, h, t, ht => by
    simp only [stringifyChars, Option.some.injEq] at ht
    subst ht
    have hxs := needItems_le_length xs (by simpa [jsonSafe] using h)
    simp only [need, List.length_cons, List.length_append, List.length_nil]
    omega
/-- The member texts are at least as long as the calls they need. -/
theorem needFields_le_length :
    ∀ fs : List (String × JsVal), jsonSafeFields fs = true →
      needFields fs ≤ (joinComma (members fs)).length
  | [], _ => by simp [needFields]
  | (k, v) :: fs, h => by
    simp only [jsonSafeFields, Bool.and_eq_true] at h
    obtain ⟨c, t, ht, -⟩ := parseValue_stringifyChars v h.1
    have hv := need_le_length v h.1 _ ht
    have hfs := needFields_le_length fs h.2
    have hm : members ((k, v) :: fs) = (quote k ++ ':' :: c :: t) :: members fs := by
      simp only [members, ht]
    have hj := length_joinComma_cons (quote k ++ ':' :: c :: t) (members fs)
    rw [hm]
    simp only [needFields]
    simp only [List.length_append, List.length_cons] at hj hv
    omega
/-- The element texts are at least as long as the calls they need. -/
theorem needItems_le_length :
    ∀ xs : List JsVal, jsonSafeItems xs = true →
      needItems xs ≤ (joinComma (elements xs)).length
  | [], _ => by simp [needItems]
  | v :: xs, h => by
    simp only [jsonSafeItems, Bool.and_eq_true] at h
    obtain ⟨c, t, ht, -⟩ := parseValue_stringifyChars v h.1
    have hv := need_le_length v h.1 _ ht
    have hxs := needItems_le_length xs h.2
    have hm : elements (v :: xs) = (c :: t) :: elements xs := by
      simp only [elements, ht]
    have hj := length_joinComma_cons (c :: t) (elements xs)
    rw [hm]
    simp only [needItems]
    simp only [List.length_cons] at hj hv
    omega
end

/-- Decoding the JSON text of a value that holds no `undefined` gives the
value back. -/
theorem parse_stringify (v : JsVal) (h : jsonSafe v = true) :
    (stringify v).bind parse = some v := by
  obtain ⟨c, t, ht, -, -, hparse⟩ := parseValue_stringifyChars v h
  have hlen := need_le_length v h _ ht
  have hp := hparse ((c :: t).length + 1) [] (by omega)
  rw [List.append_nil] at hp
  simp only [stringify, ht, Option.map_some', Option.some_bind, parse, hp, skipWs]
  rfl

end JSON


/-- The JSON model is not the identity: a field holding `undefined` is left
out of the text, so the search group of an environment with no variable set
comes back as the empty object. -/
theorem search_json_drops_undefined :
    (JSON.stringify (search emptyEnv)).bind JSON.parse = some (obj []) ∧
    (JSON.stringify (search fullEnv)).bind JSON.parse = some (search fullEnv) :=
  ⟨rfl, JSON.parse_stringify (search fullEnv) rfl⟩

/-- C5: in every environment `siteMetadata` has a JSON text, decoding that
text gives `siteMetadata` back, and in the decoded value `og.image.width` is
the string `"1200"` and `og.image.height` the string `"630"`; the `twitter`
and `og` groups come back unchanged. -/
theorem siteMetadata_json_roundtrip (env : Env) :
    (JSON.stringify (siteMetadata env)).bind JSON.parse = some (siteMetadata env) ∧
    ((JSON.stringify (siteMetadata env)).bind JSON.parse).map
      (fun v => v.getPath ["og", "image", "width"]) = some (str "1200") ∧
    ((JSON.stringify (siteMetadata env)).bind JSON.parse).map
      (fun v => v.getPath ["og", "image", "height"]) = some (str "630") ∧
    ((JSON.stringify (siteMetadata env)).bind JSON.parse).map (fun v => v.get "twitter") =
      some (obj [("site", str "@howtodata"), ("creator", str "@howtodata"),
        ("image", str "/social/docs-social.png")]) ∧
    ((JSON.stringify (siteMetadata env)).bind JSON.parse).map (fun v => v.get "og") =
      some (obj [("site_name", str "How To Data"), ("type", str "website"),
        ("image", obj [("alt", str "How To Data"), ("height", str "630"),
          ("type", str "image/png"), ("url", str "/social/docs-social.png"),
          ("width", str "1200")])]) := by
  have h : (JSON.stringify (siteMetadata env)).bind JSON.parse = some (siteMetadata env) :=
    JSON.parse_stringify (siteMetadata env) rfl
  rw [h]
  exact ⟨rfl, rfl, rfl, rfl, rfl⟩

end Dataguide
